import Mathlib

/-!
Verification of the meet-minutes webhook service (`main.py`): channel
resolution, summary sanitization, participant/transcript rendering, and the
webhook handler's short-circuiting, embedded shallowly over `List Char` /
`String`.
-/

namespace MeetMinutes

/-- The static title → Slack channel table, in the source's insertion order,
with the designated `default` entry last (`CHANNEL_MAP` in `main.py`). -/
def CHANNEL_MAP : List (String × String) :=
  [("[ONLINE] murmo - Weekly Marketing Sync", "C08MHTH29BR"),
   ("［ONLINE］Chamadhi US Weekly", "C08S4GS02RG"),
   ("[ONLINE] weekly mtg - Reina", "C09G09ZT8F7"),
   ("BE SEKIRARA LOUNGE - Hanano 定例", "C0A9T9MBNBW"),
   ("SEKIRARA / Chamadhi weekly", "C09KSKV8T6C"),
   ("SEKIRARA weekly with Hinano", "C0A8SCR85V2"),
   ("default", "C0AG7SAK8MR")]

/-- First-match association lookup, modelling Python's `key in dict` test
together with `dict[key]` (insertion order; keys here are pairwise distinct). -/
def mapGet : List (String × String) → String → Option String
  | [], _ => none
  | (k, v) :: rest, key => if k = key then some v else mapGet rest key

/-- `isSubstrOf p s` is Python's `p in s` on strings: `p` occurs contiguously
in `s`; the empty list is a substring of everything. -/
def isSubstrOf (p : List Char) : List Char → Bool
  | [] => p.isEmpty
  | c :: rest => p.isPrefixOf (c :: rest) || isSubstrOf p rest

/-- Python's `a in b` on `String`. -/
def inPy (a b : String) : Bool := isSubstrOf a.data b.data

/-- The substring-matching loop of `resolve_channel`: scan entries in table
order, skip the `default` entry, and return the first channel whose key is a
substring of the title or contains the title. -/
def scanSub : List (String × String) → String → Option String
  | [], _ => none
  | (key, channel) :: rest, title =>
    if key = "default" then scanSub rest title
    else if inPy key title || inPy title key then some channel
    else scanSub rest title

/-- `resolve_channel` from `main.py`: exact key match first (Python
`title in CHANNEL_MAP`), then the bidirectional substring scan, then the
`default` entry's channel (present in `CHANNEL_MAP`, so the `getD` fallback
is unreachable). -/
def resolve_channel (title : String) : String :=
  match mapGet CHANNEL_MAP title with
  | some c => c
  | none =>
    match scanSub CHANNEL_MAP title with
    | some c => c
    | none => (mapGet CHANNEL_MAP "default").getD ""

/-- Python whitespace (`str.isspace`), the characters removed by
`line.lstrip()`: ASCII controls 09–0D and 1C–1F, space, NEL, NBSP, and the
Unicode space/line/paragraph separators. -/
def isPySpace (c : Char) : Bool :=
  c.toNat ∈ [0x09, 0x0A, 0x0B, 0x0C, 0x0D, 0x1C, 0x1D, 0x1E, 0x1F, 0x20,
             0x85, 0xA0, 0x1680, 0x2000, 0x2001, 0x2002, 0x2003, 0x2004,
             0x2005, 0x2006, 0x2007, 0x2008, 0x2009, 0x200A, 0x2028, 0x2029,
             0x202F, 0x205F, 0x3000]

/-- `HEADING_EMOJIS` from `main.py`, as character sequences: 🎯 U+1F3AF,
📢 U+1F4E2, ✅ U+2705, ⏳ U+23F3, and ▶️ = U+25B6 followed by the variation
selector U+FE0F. Membership order is irrelevant (Python iterates a set). -/
def HEADING_EMOJIS : List (List Char) :=
  [[Char.ofNat 0x1F3AF], [Char.ofNat 0x1F4E2], [Char.ofNat 0x2705],
   [Char.ofNat 0x23F3], [Char.ofNat 0x25B6, Char.ofNat 0xFE0F]]

/-- `any(line.lstrip().startswith(e) for e in HEADING_EMOJIS)`. -/
def isHeadingLine (l : List Char) : Bool :=
  HEADING_EMOJIS.any (fun e => e.isPrefixOf (l.dropWhile isPySpace))

/-- The character class `[a-zA-Z0-9_+-]` of the inline-emoji-code regex
(ASCII letters and digits only, as in Python `re` literal ranges). -/
def isWordChar (c : Char) : Bool :=
  c.isAlpha || c.isDigit || c == '_' || c == '+' || c == '-'

/-- Left-to-right scanner realizing `re.sub(r":[a-zA-Z0-9_+-]+:", "", line)`:
`pending = some ws` means a `:` followed by the word characters `ws`
(reversed) has been read and a closing `:` is awaited. A closing `:` after a
nonempty run deletes the match and resumes after it; a failed partial match is
flushed verbatim (no character inside it can start another match, so resuming
in the normal state is faithful to the regex's position-by-position retry). -/
def colonScan : Option (List Char) → List Char → List Char
  | none, [] => []
  | none, c :: cs => if c = ':' then colonScan (some []) cs else c :: colonScan none cs
  | some ws, [] => ':' :: ws.reverse
  | some ws, c :: cs =>
    if isWordChar c then colonScan (some (c :: ws)) cs
    else if c = ':' then
      if ws.isEmpty then ':' :: colonScan (some []) cs
      else colonScan none cs
    else ':' :: ws.reverse ++ c :: colonScan none cs

/-- `re.sub(r":[a-zA-Z0-9_+-]+:", "", line)` on a line. -/
def removeColonCodes (l : List Char) : List Char := colonScan none l

/-- The `emoji_pattern` character class of `strip_emojis`: the fixed union of
Unicode code-point ranges (plus U+200D) whose characters are stripped from
non-heading lines. -/
def inEmojiRanges (c : Char) : Bool :=
  let n := c.toNat
  decide ((0x1F600 ≤ n ∧ n ≤ 0x1F64F) ∨ (0x1F300 ≤ n ∧ n ≤ 0x1F5FF) ∨
    (0x1F680 ≤ n ∧ n ≤ 0x1F6FF) ∨ (0x1F1E0 ≤ n ∧ n ≤ 0x1F1FF) ∨
    (0x2702 ≤ n ∧ n ≤ 0x27B0) ∨ (0x24C2 ≤ n ∧ n ≤ 0x1F251) ∨
    (0x1F900 ≤ n ∧ n ≤ 0x1F9FF) ∨ (0x1FA00 ≤ n ∧ n ≤ 0x1FA6F) ∨
    (0x1FA70 ≤ n ∧ n ≤ 0x1FAFF) ∨ (0x2600 ≤ n ∧ n ≤ 0x26FF) ∨
    (0xFE00 ≤ n ∧ n ≤ 0xFE0F) ∨ n = 0x200D)

/-- The per-line body of `strip_emojis`: heading lines pass through unchanged;
other lines get inline colon codes removed, then emoji-range characters
filtered out (substituting a `+`-run of class characters with the empty string
deletes exactly the class characters). -/
def processLine (l : List Char) : List Char :=
  if isHeadingLine l then l
  else (removeColonCodes l).filter (fun c => !inEmojiRanges c)

/-- Python `text.split("\n")`: never empty, one (possibly empty) piece per
newline-separated segment. -/
def splitLines : List Char → List (List Char)
  | [] => [[]]
  | c :: cs =>
    if c = '\n' then [] :: splitLines cs
    else
      match splitLines cs with
      | [] => [[c]]
      | l :: ls => (c :: l) :: ls

/-- Python `"\n".join(lines)`. -/
def joinLines : List (List Char) → List Char
  | [] => []
  | [l] => l
  | l :: ls => l ++ '\n' :: joinLines ls

/-- `strip_emojis` from `main.py`: split on newline, process each line,
rejoin with newline. -/
def strip_emojis (s : String) : String :=
  String.mk (joinLines ((splitLines s.data).map processLine))

/-- The structured form of a participant: a JSON object that may carry any of
the three name-bearing fields (absent field = `none`). -/
structure ParticipantRecord where
  displayName : Option String
  name : Option String
  email : Option String
deriving DecidableEq

/-- A participant as `generate_summary` receives it: either a bare string or
a structured record (`isinstance(p, str)` dispatch). -/
inductive Participant where
  | str : String → Participant
  | record : ParticipantRecord → Participant
deriving DecidableEq

/-- The participant-name expression of `generate_summary`:
`p if isinstance(p, str) else p.get("displayName", p.get("name", p.get("email", "")))`. -/
def extract_name : Participant → String
  | .str s => s
  | .record r => r.displayName.getD (r.name.getD (r.email.getD ""))

/-- One transcript sentence as returned by the Fireflies query
(`speaker_name`, `text`; absent field = `none`). -/
structure Sentence where
  speaker_name : Option String
  text : Option String
deriving DecidableEq

/-- The per-utterance format `f"{s.get('speaker_name', '不明')}: {s.get('text', '')}"`
of `webhook_fireflies`. -/
def renderSentence (s : Sentence) : String :=
  s.speaker_name.getD "不明" ++ ": " ++ s.text.getD ""

/-- The transcript text of `webhook_fireflies`: the formatted utterances
joined with newline, in original order. -/
def renderTranscript (ss : List Sentence) : String :=
  String.mk (joinLines (ss.map (fun s => (renderSentence s).data)))

/-- The transcript object of the Fireflies response: `title`, `participants`,
`sentences`, each possibly absent. -/
structure TranscriptData where
  title : Option String
  participants : Option (List Participant)
  sentences : Option (List Sentence)

/-- The HTTP response of the webhook route: status code plus either an error
message or the resolved channel. -/
structure HttpResponse where
  status : Nat
  error : Option String
  channel : Option String
deriving DecidableEq

/-- Which outbound calls the handler performed: the Fireflies fetch, the
summary generation, the Slack publish. -/
structure Calls where
  fetch : Bool
  generate : Bool
  publish : Bool
deriving DecidableEq

/-- The decision logic of the `/webhook/fireflies` route, with the network
effects made explicit: `meetingId` is the payload's field (`none` = absent;
Python's `if not meeting_id` also treats the empty string as missing), and
`data` is what `fetch_transcript` would return. Returns the HTTP response
together with the calls performed. -/
def webhook_fireflies (meetingId : Option String) (data : TranscriptData) :
    HttpResponse × Calls :=
  match meetingId with
  | none => (⟨400, some "meetingId is missing", none⟩, ⟨false, false, false⟩)
  | some mid =>
    if mid = "" then (⟨400, some "meetingId is missing", none⟩, ⟨false, false, false⟩)
    else
      let title := (data.title).getD "無題の会議"
      let sentences := (data.sentences).getD []
      let transcript := renderTranscript sentences
      if transcript = "" then
        (⟨400, some "transcript is empty", none⟩, ⟨true, false, false⟩)
      else
        let channel := resolve_channel title
        if channel = "" then
          (⟨400, some "no matching channel found", none⟩, ⟨true, false, false⟩)
        else (⟨200, none, some channel⟩, ⟨true, true, true⟩)

theorem mapGet_eq_none (m : List (String × String)) (key : String)
    (h : ∀ p ∈ m, key ≠ p.1) : mapGet m key = none := by
  induction m with
  | nil => rfl
  | cons p rest ih =>
    obtain ⟨k, v⟩ := p
    simp only [mapGet]
    rw [if_neg]
    · exact ih fun q hq => h q (List.mem_cons_of_mem _ hq)
    · intro hk
      exact h (k, v) (List.mem_cons_self _ _) hk.symm

theorem mapGet_mem (m : List (String × String)) (key v : String)
    (h : mapGet m key = some v) : v ∈ m.map Prod.snd := by
  induction m with
  | nil => simp [mapGet] at h
  | cons p rest ih =>
    obtain ⟨k, w⟩ := p
    simp only [mapGet] at h
    by_cases hk : k = key
    · rw [if_pos hk] at h
      cases h
      exact List.mem_cons_self _ _
    · rw [if_neg hk] at h
      exact List.mem_cons_of_mem _ (ih h)

theorem scanSub_eq_none (m : List (String × String)) (title : String)
    (h : ∀ p ∈ m, p.1 ≠ "default" →
      inPy p.1 title = false ∧ inPy title p.1 = false) :
    scanSub m title = none := by
  induction m with
  | nil => rfl
  | cons p rest ih =>
    obtain ⟨k, c⟩ := p
    simp only [scanSub]
    by_cases hk : k = "default"
    · rw [if_pos hk]
      exact ih fun q hq hq' => h q (List.mem_cons_of_mem _ hq) hq'
    · rw [if_neg hk]
      have hh := h (k, c) (List.mem_cons_self _ _) hk
      rw [if_neg]
      · exact ih fun q hq hq' => h q (List.mem_cons_of_mem _ hq) hq'
      · simp [hh.1, hh.2]

theorem scanSub_mem (m : List (String × String)) (title v : String)
    (h : scanSub m title = some v) : v ∈ m.map Prod.snd := by
  induction m with
  | nil => simp [scanSub] at h
  | cons p rest ih =>
    obtain ⟨k, c⟩ := p
    simp only [scanSub] at h
    by_cases hk : k = "default"
    · rw [if_pos hk] at h
      exact List.mem_cons_of_mem _ (ih h)
    · rw [if_neg hk] at h
      by_cases hm : (inPy k title || inPy title k) = true
      · rw [if_pos hm] at h
        cases h
        exact List.mem_cons_self _ _
      · rw [if_neg hm] at h
        exact List.mem_cons_of_mem _ (ih h)

theorem splitLines_ne_nil (cs : List Char) : splitLines cs ≠ [] := by
  cases cs with
  | nil => simp [splitLines]
  | cons c cs =>
    simp only [splitLines]
    split
    · simp
    · split <;> simp

theorem joinLines_cons (c : Char) (l : List Char) (ls : List (List Char)) :
    joinLines ((c :: l) :: ls) = c :: joinLines (l :: ls) := by
  cases ls <;> simp [joinLines]

theorem join_split (cs : List Char) : joinLines (splitLines cs) = cs := by
  induction cs with
  | nil => rfl
  | cons c cs ih =>
    simp only [splitLines]
    by_cases h : c = '\n'
    · rw [if_pos h]
      cases hsp : splitLines cs with
      | nil => exact absurd hsp (splitLines_ne_nil cs)
      | cons l ls =>
        rw [hsp] at ih
        subst h
        simpa [joinLines] using ih
    · rw [if_neg h]
      cases hsp : splitLines cs with
      | nil => exact absurd hsp (splitLines_ne_nil cs)
      | cons l ls =>
        rw [hsp] at ih
        rw [joinLines_cons, ih]

theorem mem_splitLines_no_newline (cs : List Char) :
    ∀ l ∈ splitLines cs, '\n' ∉ l := by
  induction cs with
  | nil =>
    intro l hl
    simp only [splitLines, List.mem_singleton] at hl
    subst hl
    simp
  | cons c cs ih =>
    intro l hl
    simp only [splitLines] at hl
    by_cases h : c = '\n'
    · rw [if_pos h] at hl
      rcases List.mem_cons.mp hl with rfl | hl'
      · simp
      · exact ih l hl'
    · rw [if_neg h] at hl
      cases hsp : splitLines cs with
      | nil => exact absurd hsp (splitLines_ne_nil cs)
      | cons l' ls =>
        rw [hsp] at hl
        rcases List.mem_cons.mp hl with rfl | hl'
        · intro hmem
          rcases List.mem_cons.mp hmem with heq | hmem'
          · exact h heq.symm
          · exact ih l' (hsp ▸ List.mem_cons_self _ _) hmem'
        · exact ih l (hsp ▸ List.mem_cons_of_mem _ hl')

theorem splitLines_no_newline (l : List Char) (h : '\n' ∉ l) :
    splitLines l = [l] := by
  induction l with
  | nil => rfl
  | cons c cs ih =>
    have hc : c ≠ '\n' := fun hq => h (hq ▸ List.mem_cons_self _ _)
    have hcs : '\n' ∉ cs := fun hq => h (List.mem_cons_of_mem _ hq)
    simp only [splitLines, if_neg hc, ih hcs]

theorem splitLines_append (l rest : List Char) (h : '\n' ∉ l) :
    splitLines (l ++ '\n' :: rest) = l :: splitLines rest := by
  induction l with
  | nil => simp [splitLines]
  | cons c cs ih =>
    have hc : c ≠ '\n' := fun hq => h (hq ▸ List.mem_cons_self _ _)
    have hcs : '\n' ∉ cs := fun hq => h (List.mem_cons_of_mem _ hq)
    simp only [List.cons_append, splitLines, if_neg hc, List.append_eq, ih hcs]

theorem split_join (ls : List (List Char)) (hne : ls ≠ [])
    (h : ∀ l ∈ ls, '\n' ∉ l) : splitLines (joinLines ls) = ls := by
  induction ls with
  | nil => exact absurd rfl hne
  | cons l ls ih =>
    cases ls with
    | nil =>
      have : joinLines [l] = l := rfl
      rw [this, splitLines_no_newline l (h l (List.mem_cons_self _ _))]
    | cons l₂ ls₂ =>
      have hj : joinLines (l :: l₂ :: ls₂) = l ++ '\n' :: joinLines (l₂ :: ls₂) := rfl
      rw [hj, splitLines_append _ _ (h l (List.mem_cons_self _ _))]
      rw [ih (List.cons_ne_nil _ _) fun q hq => h q (List.mem_cons_of_mem _ hq)]

theorem colonScan_sublist (cs : List Char) :
    (∀ ws, List.Sublist (colonScan (some ws) cs) (':' :: (ws.reverse ++ cs))) ∧
      List.Sublist (colonScan none cs) cs := by
  induction cs with
  | nil =>
    constructor
    · intro ws
      simp [colonScan]
    · simp [colonScan]
  | cons c cs ih =>
    obtain ⟨ihs, ihn⟩ := ih
    constructor
    · intro ws
      simp only [colonScan]
      by_cases hw : isWordChar c
      · rw [if_pos hw]
        have h := ihs (c :: ws)
        simpa [List.append_assoc] using h
      · rw [if_neg hw]
        by_cases hc : c = ':'
        · rw [if_pos hc]
          subst hc
          by_cases he : ws.isEmpty
          · rw [if_pos he]
            have hws : ws = [] := by simpa [List.isEmpty_iff] using he
            subst hws
            exact List.Sublist.cons₂ _ (ihs [])
          · rw [if_neg he]
            exact ihn.trans (((List.Sublist.cons ':' (List.Sublist.refl cs)).trans
              (List.sublist_append_right ws.reverse (':' :: cs))).cons ':')
        · rw [if_neg hc]
          exact List.Sublist.cons₂ _
            (List.Sublist.append_left (List.Sublist.cons₂ _ ihn) ws.reverse)
    · simp only [colonScan]
      by_cases hc : c = ':'
      · rw [if_pos hc]
        subst hc
        exact ihs []
      · rw [if_neg hc]
        exact List.Sublist.cons₂ _ ihn

theorem processLine_sublist (l : List Char) : List.Sublist (processLine l) l := by
  unfold processLine
  split
  · exact List.Sublist.refl l
  · exact (List.filter_sublist _).trans (colonScan_sublist l).2

theorem processLine_no_newline (l : List Char) (h : '\n' ∉ l) :
    '\n' ∉ processLine l :=
  fun hmem => h ((processLine_sublist l).subset hmem)

theorem strip_emojis_splitLines (s : String) :
    splitLines (strip_emojis s).data = (splitLines s.data).map processLine := by
  have hdata : (strip_emojis s).data =
      joinLines ((splitLines s.data).map processLine) := rfl
  rw [hdata]
  apply split_join
  · intro hmap
    exact splitLines_ne_nil s.data (List.map_eq_nil_iff.mp hmap)
  · intro l hl
    obtain ⟨l', hl', rfl⟩ := List.mem_map.mp hl
    exact processLine_no_newline l' (mem_splitLines_no_newline s.data l' hl')

theorem joinLines_map_sublist (f : List Char → List Char)
    (hf : ∀ l, List.Sublist (f l) l) (ls : List (List Char)) :
    List.Sublist (joinLines (ls.map f)) (joinLines ls) := by
  induction ls with
  | nil => exact List.Sublist.refl _
  | cons l ls ih =>
    cases ls with
    | nil => exact hf l
    | cons l₂ ls₂ =>
      have h₁ : joinLines ((l :: l₂ :: ls₂).map f) =
          f l ++ '\n' :: joinLines ((l₂ :: ls₂).map f) := rfl
      have h₂ : joinLines (l :: l₂ :: ls₂) = l ++ '\n' :: joinLines (l₂ :: ls₂) := rfl
      rw [h₁, h₂]
      exact List.Sublist.append (hf l) (List.Sublist.cons₂ _ ih)

theorem string_data_ext (a b : String) (h : a.data = b.data) : a = b :=
  congrArg String.mk h

/-- C1: every title that is present verbatim as a non-default key of the
channel table resolves to that key's channel — the exact match fires before
the substring scan, so it wins over any substring relation with another
entry. -/
theorem c1_exact_match_wins (key channel : String)
    (hmem : (key, channel) ∈ CHANNEL_MAP) (hkey : key ≠ "default") :
    resolve_channel key = channel := by
  simp only [CHANNEL_MAP, List.mem_cons, List.not_mem_nil, or_false,
    Prod.mk.injEq] at hmem
  rcases hmem with ⟨rfl, rfl⟩ | ⟨rfl, rfl⟩ | ⟨rfl, rfl⟩ | ⟨rfl, rfl⟩ |
    ⟨rfl, rfl⟩ | ⟨rfl, rfl⟩ | ⟨rfl, rfl⟩
  · decide
  · decide
  · decide
  · decide
  · decide
  · decide
  · exact absurd rfl hkey

/-- Witness for C1: the first table entry resolves to its own channel. -/
theorem c1_exact_match_wins_witness :
    resolve_channel "[ONLINE] murmo - Weekly Marketing Sync" = "C08MHTH29BR" :=
  c1_exact_match_wins _ _ (by decide) (by decide)

/-- C2: a title equal to no non-default key and in no bidirectional substring
relation with any non-default pattern resolves to the `default` entry's
channel; and the `default` entry is never used as a pattern by the substring
scan (the scan skips it for every title). -/
theorem c2_default_fallback (title : String)
    (h1 : ∀ p ∈ CHANNEL_MAP, p.1 ≠ "default" → title ≠ p.1)
    (h2 : ∀ p ∈ CHANNEL_MAP, p.1 ≠ "default" →
      inPy p.1 title = false ∧ inPy title p.1 = false) :
    resolve_channel title = "C0AG7SAK8MR" ∧
      ∀ (c t : String) (rest : List (String × String)),
        scanSub (("default", c) :: rest) t = scanSub rest t := by
  refine ⟨?_, fun c t rest => by simp [scanSub]⟩
  by_cases hd : title = "default"
  · subst hd
    decide
  · have hget : mapGet CHANNEL_MAP title = none := by
      apply mapGet_eq_none
      intro p hp
      by_cases hpd : p.1 = "default"
      · rw [hpd]
        exact hd
      · exact h1 p hp hpd
    have hscan : scanSub CHANNEL_MAP title = none := scanSub_eq_none _ _ h2
    simp only [resolve_channel, hget, hscan]
    decide

/-- Witness for C2: an unrelated title falls back to the default channel. -/
theorem c2_default_fallback_witness : resolve_channel "zzz" = "C0AG7SAK8MR" :=
  (c2_default_fallback "zzz" (by decide) (by decide)).1

/-- C3: the resolver is total — for every title (the empty string included)
it returns one of the channel identifiers of the table, never an undefined
or empty channel. -/
theorem c3_resolver_total (title : String) :
    resolve_channel title ∈ CHANNEL_MAP.map Prod.snd ∧
      resolve_channel title ≠ "" := by
  have hmem : resolve_channel title ∈ CHANNEL_MAP.map Prod.snd := by
    rcases hg : mapGet CHANNEL_MAP title with _ | c
    · rcases hs : scanSub CHANNEL_MAP title with _ | c
      · have hv : resolve_channel title = (mapGet CHANNEL_MAP "default").getD "" := by
          simp only [resolve_channel, hg, hs]
        rw [hv]
        decide
      · have hv : resolve_channel title = c := by
          simp only [resolve_channel, hg, hs]
        rw [hv]
        exact scanSub_mem _ _ _ hs
    · have hv : resolve_channel title = c := by
        simp only [resolve_channel, hg]
      rw [hv]
      exact mapGet_mem _ _ _ hg
  have hno : ∀ v ∈ CHANNEL_MAP.map Prod.snd, v ≠ "" := by decide
  exact ⟨hmem, hno _ hmem⟩

/-- C9: the empty title matches no key exactly, but is a substring of the
first non-default pattern, so the resolver returns the first table entry's
channel, not the default channel. -/
theorem c9_empty_title_first_entry :
    resolve_channel "" = "C08MHTH29BR" ∧
      CHANNEL_MAP.head? =
        some ("[ONLINE] murmo - Weekly Marketing Sync", "C08MHTH29BR") ∧
      resolve_channel "" ≠ (mapGet CHANNEL_MAP "default").getD "" := by decide

/-- C4: the sanitizer acts line by line — a line that starts (after trimming
leading whitespace) with an allow-listed heading glyph is kept unchanged
byte for byte, and every other line has its inline colon codes removed and
its emoji-range characters filtered out, the rest kept intact. -/
theorem c4_sanitizer_per_line (s : String) :
    List.Forall₂ (fun lin lout =>
        (isHeadingLine lin = true → lout = lin) ∧
        (isHeadingLine lin = false →
          lout = (removeColonCodes lin).filter (fun c => !inEmojiRanges c)))
      (splitLines s.data) (splitLines (strip_emojis s).data) := by
  rw [strip_emojis_splitLines, List.forall₂_map_right_iff, List.forall₂_same]
  intro l _
  refine ⟨fun hh => ?_, fun hh => ?_⟩
  · simp [processLine, hh]
  · simp [processLine, hh]

/-- C10: the sanitizer preserves line structure — the output has exactly as
many newline-separated lines as the input, and line `i` of the output is the
processed form of line `i` of the input. -/
theorem c10_sanitizer_line_structure (s : String) :
    (splitLines (strip_emojis s).data).length = (splitLines s.data).length ∧
      ∀ i : Nat, (splitLines (strip_emojis s).data)[i]? =
        ((splitLines s.data)[i]?).map processLine := by
  refine ⟨?_, fun i => ?_⟩
  · rw [strip_emojis_splitLines, List.length_map]
  · rw [strip_emojis_splitLines]
    exact List.getElem?_map processLine (splitLines s.data) i

/-- C5 counterexample: `strip_emojis` is not idempotent — on `"::a:b:"` the
first pass removes `":a:"` leaving `":b:"`, which the second pass removes. -/
theorem c5_not_idempotent :
    strip_emojis (strip_emojis "::a:b:") ≠ strip_emojis "::a:b:" := by decide

/-- C5 (amended): each application of the sanitizer either leaves the text
fixed or strictly shortens it (it only ever deletes characters), so iterating
it reaches a fixed point; it is not idempotent in one step. -/
theorem c5_sanitizer_contraction (s : String) :
    strip_emojis s = s ∨ (strip_emojis s).length < s.length := by
  have hsub : List.Sublist (strip_emojis s).data s.data := by
    have h1 : (strip_emojis s).data =
        joinLines ((splitLines s.data).map processLine) := rfl
    rw [h1]
    have h2 := joinLines_map_sublist processLine processLine_sublist (splitLines s.data)
    rw [join_split] at h2
    exact h2
  by_cases hlen : (strip_emojis s).data.length = s.data.length
  · exact Or.inl (string_data_ext _ _ (hsub.eq_of_length hlen))
  · exact Or.inr (lt_of_le_of_ne hsub.length_le hlen)

/-- C6: participant-name extraction is total and follows the stated
priority — a bare string is used verbatim, a record is probed in order
`displayName`, `name`, `email` taking the first present value, and a record
with none of the three yields the empty string. -/
theorem c6_extract_name_total :
    (∀ s, extract_name (.str s) = s) ∧
    (∀ r d, r.displayName = some d → extract_name (.record r) = d) ∧
    (∀ r n, r.displayName = none → r.name = some n →
      extract_name (.record r) = n) ∧
    (∀ r e, r.displayName = none → r.name = none → r.email = some e →
      extract_name (.record r) = e) ∧
    (∀ r, r.displayName = none → r.name = none → r.email = none →
      extract_name (.record r) = "") := by
  refine ⟨fun s => rfl, fun r d h => ?_, fun r n h1 h2 => ?_,
    fun r e h1 h2 h3 => ?_, fun r h1 h2 h3 => ?_⟩ <;>
    simp [extract_name, *]

/-- Witness for C6: a bare string, an email-only record, and an empty
record. -/
theorem c6_extract_name_total_witness :
    extract_name (.str "Alice") = "Alice" ∧
      extract_name (.record ⟨none, none, some "a@b.c"⟩) = "a@b.c" ∧
      extract_name (.record ⟨none, none, none⟩) = "" :=
  ⟨c6_extract_name_total.1 "Alice",
   c6_extract_name_total.2.2.2.1 ⟨none, none, some "a@b.c"⟩ "a@b.c" rfl rfl rfl,
   c6_extract_name_total.2.2.2.2 ⟨none, none, none⟩ rfl rfl rfl⟩

/-- C7 counterexample: a single utterance whose text embeds a newline renders
to two lines, not one, so the claim's universal line count fails. -/
theorem c7_embedded_newline :
    (splitLines (renderTranscript [⟨some "A", some "a\nb"⟩]).data).length = 2 ∧
      (splitLines (renderTranscript [⟨some "A", some "a\nb"⟩]).data).length ≠ 1 := by
  decide

/-- C7 (amended): an empty utterance sequence renders to the empty string,
and for every nonempty sequence whose speaker and text fields contain no
newline, the rendered transcript has exactly one line per utterance, in the
original order, each formatted as `speaker: text` with the unknown-speaker
sentinel and empty-text defaults. -/
theorem c7_render_order (ss : List Sentence) (hne : ss ≠ [])
    (h : ∀ u ∈ ss, '\n' ∉ (u.speaker_name.getD "不明").data ∧
      '\n' ∉ (u.text.getD "").data) :
    renderTranscript [] = "" ∧
      splitLines (renderTranscript ss).data =
        ss.map (fun u => (u.speaker_name.getD "不明" ++ ": " ++ u.text.getD "").data) ∧
      (splitLines (renderTranscript ss).data).length = ss.length := by
  have hsplit : splitLines (renderTranscript ss).data =
      ss.map fun u => (renderSentence u).data := by
    have hdata : (renderTranscript ss).data =
        joinLines (ss.map fun u => (renderSentence u).data) := rfl
    rw [hdata]
    apply split_join
    · intro hmap
      exact hne (List.map_eq_nil_iff.mp hmap)
    · intro l hl
      obtain ⟨u, hu, rfl⟩ := List.mem_map.mp hl
      have hu' := h u hu
      intro hmem
      have heq : (renderSentence u).data =
          ((u.speaker_name.getD "不明").data ++ ": ".data) ++ (u.text.getD "").data := rfl
      rw [heq] at hmem
      rcases List.mem_append.mp hmem with hmem' | hmem'
      · rcases List.mem_append.mp hmem' with hmem'' | hmem''
        · exact hu'.1 hmem''
        · exact absurd hmem'' (by decide)
      · exact hu'.2 hmem'
  refine ⟨by decide, ?_, ?_⟩
  · rw [hsplit]
    rfl
  · rw [hsplit, List.length_map]

/-- Witness for C7 (amended): two utterances, one with both fields absent. -/
theorem c7_render_order_witness :
    renderTranscript [] = "" ∧
      splitLines (renderTranscript [⟨some "Alice", some "hello"⟩, ⟨none, none⟩]).data =
        ([⟨some "Alice", some "hello"⟩, ⟨none, none⟩] : List Sentence).map
          (fun u => (u.speaker_name.getD "不明" ++ ": " ++ u.text.getD "").data) ∧
      (splitLines (renderTranscript [⟨some "Alice", some "hello"⟩, ⟨none, none⟩]).data).length =
        ([⟨some "Alice", some "hello"⟩, ⟨none, none⟩] : List Sentence).length :=
  c7_render_order [⟨some "Alice", some "hello"⟩, ⟨none, none⟩] (by decide) (by decide)

/-- C8: a payload without a meeting identifier yields the client error
`meetingId is missing` with no fetch, generation, or publish call; a fetched
transcript whose rendered text is empty yields the client error
`transcript is empty` after the fetch, with no generation or publish call. -/
theorem c8_short_circuit :
    (∀ data : TranscriptData,
      webhook_fireflies none data =
        (⟨400, some "meetingId is missing", none⟩, ⟨false, false, false⟩)) ∧
    (∀ (mid : String) (data : TranscriptData), mid ≠ "" →
      renderTranscript (data.sentences.getD []) = "" →
      webhook_fireflies (some mid) data =
        (⟨400, some "transcript is empty", none⟩, ⟨true, false, false⟩)) := by
  refine ⟨fun data => rfl, fun mid data hmid htr => ?_⟩
  simp [webhook_fireflies, hmid, htr]

/-- Witness for C8: an absent identifier, and a fetched transcript with an
empty sentence list. -/
theorem c8_short_circuit_witness :
    webhook_fireflies none ⟨none, none, none⟩ =
        (⟨400, some "meetingId is missing", none⟩, ⟨false, false, false⟩) ∧
      webhook_fireflies (some "abc123") ⟨some "T", none, some []⟩ =
        (⟨400, some "transcript is empty", none⟩, ⟨true, false, false⟩) :=
  ⟨c8_short_circuit.1 ⟨none, none, none⟩,
   c8_short_circuit.2 "abc123" ⟨some "T", none, some []⟩ (by decide) (by decide)⟩

end MeetMinutes
